import Mathlib

/-!
Shallow embedding of the sudoku-solver crate (src/lib.rs): the `Sudoku`
table, `Sudoku::valid`, `FromStr::from_str` and `Display::fmt`, together
with theorems settling the specification claims about them.

The Rust table is `[[u8; 9]; 9]`; we model it as a function
`Fin 9 → Fin 9 → Nat` whose values are the u8 cell contents.  Code that
can panic (the `counts[(val - 1) as usize]` index in `valid`) is modelled
with `Option`: `none` is a panic.  Strings are lists of `Char`; Rust's
`str::len` counts UTF-8 bytes, which `byteLen` reproduces.
-/

/-- The sudoku table `[[u8; 9]; 9]`, as a function from (row, col). -/
abbrev Grid := Fin 9 → Fin 9 → Nat

/-- Error type of the crate: `SudokuError { details: String }`. -/
structure SudokuError where
  details : String
deriving DecidableEq

/-- One `counts[i] += 1` step on the counts array of `Sudoku::valid`. -/
def bump (counts : Nat → Nat) (i : Nat) : Nat → Nat :=
  fun j => if j = i then counts j + 1 else counts j

/-- The counting loop of one group in `Sudoku::valid`:
`counts[(val - 1) as usize] += 1` for each value.  For `val = 0` the u8
subtraction underflows and for `val > 9` the index is past the end of the
9-element array; either way Rust panics, modelled as `none`. -/
def fillCounts : List Nat → (Nat → Nat) → Option (Nat → Nat)
  | [], counts => some counts
  | v :: vs, counts =>
      if 1 ≤ v ∧ v ≤ 9 then fillCounts vs (bump counts (v - 1)) else none

/-- Checking one group (row, column or block): build the counts, then the
group passes iff no count differs from 1. -/
def checkGroup (vals : List Nat) : Option Bool :=
  (fillCounts vals (fun _ => 0)).map
    (fun counts => !((List.range 9).any (fun d => counts d != 1)))

/-- The early-return control flow of `Sudoku::valid`: groups are checked
in order; the first failing group returns `false`, a panic aborts. -/
def validGo : List (List Nat) → Option Bool
  | [] => some true
  | vs :: rest =>
      match checkGroup vs with
      | none => none
      | some false => some false
      | some true => validGo rest

/-- Row `r` of the table, in column order. -/
def rowList (g : Grid) (r : Fin 9) : List Nat :=
  (List.finRange 9).map (fun c => g r c)

/-- Column `c` of the table, in row order. -/
def colList (g : Grid) (c : Fin 9) : List Nat :=
  (List.finRange 9).map (fun r => g r c)

/-- The 3×3 block at block row `br`, block column `bc`, row-major. -/
def blockList (g : Grid) (br bc : Fin 3) : List Nat :=
  ((List.finRange 3).map (fun dr =>
    (List.finRange 3).map (fun dc =>
      g ⟨br.val * 3 + dr.val, by have h1 := br.2; have h2 := dr.2; omega⟩
        ⟨bc.val * 3 + dc.val, by have h1 := bc.2; have h2 := dc.2; omega⟩))).flatten

/-- All 27 groups in the order `Sudoku::valid` visits them: rows 0..8,
columns 0..8, then blocks row-major. -/
def gridGroups (g : Grid) : List (List Nat) :=
  (List.finRange 9).map (rowList g) ++ (List.finRange 9).map (colList g)
    ++ ((List.finRange 3).map (fun br =>
          (List.finRange 3).map (fun bc => blockList g br bc))).flatten

/-- `Sudoku::valid`.  `some b` is a normal return of `b`; `none` is the
panic on an out-of-range cell value. -/
def sudoku_valid (g : Grid) : Option Bool :=
  validGo (gridGroups g)

/-- `s.replace("\n", "")`: removes exactly the newline characters. -/
def stripNewlines (cs : List Char) : List Char :=
  cs.filter (fun c => c != '\n')

/-- UTF-8 size in bytes of one scalar value, as Rust and Lean encode it. -/
def charBytes (c : Char) : Nat :=
  if c.toNat < 128 then 1
  else if c.toNat < 2048 then 2
  else if c.toNat < 65536 then 3
  else 4

/-- Rust `str::len`: the UTF-8 byte length. -/
def byteLen (cs : List Char) : Nat :=
  (cs.map charBytes).sum

/-- ASCII decimal digit, the characters `char::to_digit(10)` accepts. -/
def isDigitChar (c : Char) : Prop :=
  48 ≤ c.toNat ∧ c.toNat ≤ 57

instance (c : Char) : Decidable (isDigitChar c) := by
  unfold isDigitChar; infer_instance

/-- `char::to_digit(10)`: `some` of the value for ASCII `'0'..='9'`,
otherwise `none`. -/
def toDigit10 (c : Char) : Option Nat :=
  if isDigitChar c then some (c.toNat - 48) else none

/-- `table[row][col] = v` (row and col are in bounds whenever reached). -/
def setCell (t : Grid) (row col v : Nat) : Grid :=
  fun r c => if r.val = row ∧ c.val = col then v else t r c

/-- Message of the length error. -/
def wrongLengthMsg : String := "Table needs to have 81 cells."

/-- `Display` of `TryFromIntError`, routed through
`From<TryFromIntError> for SudokuError`. -/
def convertMsg : String := "out of range integral type conversion attempted"

/-- Message `format!("Invalid character {} at {},{}.", c, row, col)`. -/
def invalidCharMsg (c : Char) (row col : Nat) : String :=
  "Invalid character " ++ String.mk [c] ++ " at " ++ toString row ++ ","
    ++ toString col ++ "."

/-- The character loop of `from_str`: index arithmetic `row = i / 9`,
`col = i % 9`, `to_digit(10)` with the invalid-character error, and the
`try_into` u8 narrowing with its conversion error. -/
def fromStrGo : List Char → Nat → Grid → Except SudokuError Grid
  | [], _, t => .ok t
  | c :: rest, i, t =>
      match toDigit10 c with
      | none => .error ⟨invalidCharMsg c (i / 9) (i % 9)⟩
      | some v =>
          if v ≤ 255 then fromStrGo rest (i + 1) (setCell t (i / 9) (i % 9) v)
          else .error ⟨convertMsg⟩

/-- `<Sudoku as FromStr>::from_str`: strip newlines, require byte length
81, then fill the table character by character. -/
def sudoku_from_str (s : List Char) : Except SudokuError Grid :=
  let input := stripNewlines s
  if byteLen input ≠ 81 then .error ⟨wrongLengthMsg⟩
  else fromStrGo input 0 (fun _ _ => 0)

/-- The separator line written between block rows by `Display::fmt`. -/
def sepLine : String := "------+-------+------\n"

/-- One data row of `Display::fmt`: each cell is preceded by `"| "` when
`j % 3 == 0 && j != 0`, and written as `"{} "`. -/
def fmtRow (g : Grid) (i : Fin 9) : String :=
  String.join ((List.finRange 9).map (fun j =>
    (if j.val % 3 = 0 ∧ j.val ≠ 0 then "| " else "")
      ++ toString (g i j) ++ " "))

/-- `<Sudoku as Display>::fmt`, as the string it writes: before row `i`
with `i % 3 == 0 && i != 0` the separator line is written, then the data
row and a newline. -/
def sudoku_format (g : Grid) : String :=
  String.join ((List.finRange 9).map (fun i =>
    (if i.val % 3 = 0 ∧ i.val ≠ 0 then sepLine else "")
      ++ fmtRow g i ++ "\n"))

/-- The reference row `[1, ..., 9]`: every row, column and block of a
valid grid is a permutation of this list. -/
def onetonine : List Nat := [1, 2, 3, 4, 5, 6, 7, 8, 9]

/-- The effect on the table of the successful iterations of the
`from_str` character loop: cell `(i / 9, i % 9)` receives the digit value
of the `i`-th character. -/
def writeAll : List Char → Nat → Grid → Grid
  | [], _, t => t
  | c :: rest, i, t => writeAll rest (i + 1) (setCell t (i / 9) (i % 9) (c.toNat - 48))

/-- Row-major flattening of the 81 cells into a bare digit string:
index `n` holds the digit character of cell `(n / 9, n % 9)`. -/
def flattenGrid (g : Grid) : List Char :=
  (List.finRange 81).map (fun n =>
    Char.ofNat (g ⟨n.val / 9, by have h := n.2; omega⟩ ⟨n.val % 9, by have h := n.2; omega⟩ + 48))

/-- Spec-side formatter row: `"| "` before column indices 3 and 6. -/
def fmtRowSpec (g : Grid) (i : Fin 9) : String :=
  String.join ((List.finRange 9).map (fun j =>
    (if j.val = 3 ∨ j.val = 6 then "| " else "") ++ toString (g i j) ++ " "))

/-- Spec-side formatter: the separator line before row indices 3 and 6,
each data row followed by a newline. -/
def sudoku_format_spec (g : Grid) : String :=
  String.join ((List.finRange 9).map (fun i =>
    (if i.val = 3 ∨ i.val = 6 then sepLine else "") ++ fmtRowSpec g i ++ "\n"))

/-- The solved puzzle of the crate's `test_validate_sudoku` test, as the
parser input (with the embedded newlines). -/
def solvedStr : List Char :=
  ("534678912\n672195348\n198342567\n859761423\n426853791\n713924856\n961537284\n287419635\n345286179").toList

/-- The same solved puzzle with the last cell replaced by `0`. -/
def zeroCellStr : List Char :=
  ("534678912\n672195348\n198342567\n859761423\n426853791\n713924856\n961537284\n287419635\n345286170").toList

/-- The cyclic Latin square `cell (r, c) = (r + c) % 9 + 1`. -/
def cyclicGrid : Grid := fun r c => (r.val + c.val) % 9 + 1

/-- 80 ASCII `'1'` digits followed by `'é'` (U+00E9, 2 bytes in UTF-8):
81 characters but 82 bytes. -/
def multibyteStr : List Char :=
  List.replicate 80 '1' ++ [Char.ofNat 233]

/-- 81 single-byte characters with a space (a non-digit, not stripped)
at index 40, i.e. at row 4, column 4. -/
def spaceStr : List Char :=
  List.replicate 40 '1' ++ [' '] ++ List.replicate 40 '1'

def exceptDecEq : DecidableEq (Except SudokuError Grid)
  | .error a, .error b =>
      if h : a = b then .isTrue (by rw [h]) else .isFalse (by intro hh; cases hh; exact h rfl)
  | .error a, .ok b => .isFalse (by intro h; cases h)
  | .ok a, .error b => .isFalse (by intro h; cases h)
  | .ok a, .ok b =>
      if h : a = b then .isTrue (by rw [h]) else .isFalse (by intro hh; cases hh; exact h rfl)

instance : DecidableEq (Except SudokuError Grid) := exceptDecEq

lemma fillCounts_eq (vals : List Nat) (counts : Nat → Nat)
    (h : ∀ v ∈ vals, 1 ≤ v ∧ v ≤ 9) :
    fillCounts vals counts = some (fun j => counts j + vals.count (j + 1)) := by
  induction vals generalizing counts with
  | nil =>
      simp [fillCounts]
  | cons v vs ih =>
      have hv := h v (List.mem_cons_self v vs)
      rw [fillCounts, if_pos hv, ih _ (fun x hx => h x (List.mem_cons_of_mem v hx))]
      congr 1
      funext j
      simp only [bump, List.count_cons, beq_iff_eq]
      by_cases hj : j = v - 1
      · have hv1 : (v : Nat) = j + 1 := by omega
        simp only [if_pos hj, if_pos hv1]
        omega
      · have hv1 : ¬ ((v : Nat) = j + 1) := by omega
        simp only [if_neg hj, if_neg hv1]
        omega

lemma fillCounts_ranges : ∀ (vals : List Nat) (counts counts2 : Nat → Nat),
    fillCounts vals counts = some counts2 → ∀ v ∈ vals, 1 ≤ v ∧ v ≤ 9 := by
  intro vals
  induction vals with
  | nil => intro counts counts2 _ v hv; cases hv
  | cons v vs ih =>
      intro counts counts2 h x hx
      rw [fillCounts] at h
      by_cases hv : 1 ≤ v ∧ v ≤ 9
      · rw [if_pos hv] at h
        rcases List.mem_cons.mp hx with hx | hx
        · exact hx ▸ hv
        · exact ih _ _ h x hx
      · rw [if_neg hv] at h
        cases h

lemma checkGroup_ranges {vals : List Nat} {b : Bool} (h : checkGroup vals = some b) :
    ∀ v ∈ vals, 1 ≤ v ∧ v ≤ 9 := by
  rw [checkGroup] at h
  cases hf : fillCounts vals (fun _ => 0) with
  | none => rw [hf] at h; simp at h
  | some c => exact fillCounts_ranges vals _ c hf

lemma checkGroup_some (vals : List Nat) (h : ∀ v ∈ vals, 1 ≤ v ∧ v ≤ 9) :
    ∃ b, checkGroup vals = some b := by
  rw [checkGroup, fillCounts_eq vals _ h, Option.map_some']
  exact ⟨_, rfl⟩

lemma checkGroup_eq_true_iff (vals : List Nat) (h : ∀ v ∈ vals, 1 ≤ v ∧ v ≤ 9) :
    checkGroup vals = some true ↔ ∀ d, 1 ≤ d → d ≤ 9 → vals.count d = 1 := by
  rw [checkGroup, fillCounts_eq vals _ h, Option.map_some']
  simp only [Option.some.injEq, Bool.not_eq_true', List.any_eq_false, List.mem_range,
    bne_iff_ne, ne_eq, not_not, Nat.zero_add]
  constructor
  · intro H d h1 h9
    have hd : d - 1 + 1 = d := by omega
    rw [← hd]
    exact H (d - 1) (by omega)
  · intro H d hd
    exact H (d + 1) (by omega) (by omega)

lemma validGo_eq_true_iff (l : List (List Nat)) :
    validGo l = some true ↔ ∀ vs ∈ l, checkGroup vs = some true := by
  induction l with
  | nil => simp [validGo]
  | cons vs rest ih =>
      rw [validGo]
      cases hc : checkGroup vs with
      | none => simp [List.forall_mem_cons, hc]
      | some b =>
          cases b
          · simp [List.forall_mem_cons, hc]
          · simp [List.forall_mem_cons, hc, ih]

lemma validGo_some (l : List (List Nat)) (h : ∀ vs ∈ l, ∃ b, checkGroup vs = some b) :
    ∃ b, validGo l = some b := by
  induction l with
  | nil => exact ⟨true, rfl⟩
  | cons vs rest ih =>
      obtain ⟨b, hb⟩ := h vs (List.mem_cons_self vs rest)
      rw [validGo, hb]
      cases b
      · exact ⟨false, rfl⟩
      · exact ih (fun x hx => h x (List.mem_cons_of_mem vs hx))

lemma gridGroups_forall {g : Grid} (P : List Nat → Prop) :
    (∀ vs ∈ gridGroups g, P vs) ↔
      (∀ r, P (rowList g r)) ∧ (∀ c, P (colList g c)) ∧
        ∀ br bc, P (blockList g br bc) := by
  constructor
  · intro H
    refine ⟨fun r => H _ ?_, fun c => H _ ?_, fun br bc => H _ ?_⟩
    · exact List.mem_append_left _
        (List.mem_append_left _ (List.mem_map_of_mem _ (List.mem_finRange r)))
    · exact List.mem_append_left _
        (List.mem_append_right _ (List.mem_map_of_mem _ (List.mem_finRange c)))
    · refine List.mem_append_right _ (List.mem_flatten.mpr
        ⟨(List.finRange 3).map (fun b2 => blockList g br b2), ?_, ?_⟩)
      · exact List.mem_map_of_mem _ (List.mem_finRange br)
      · exact List.mem_map_of_mem _ (List.mem_finRange bc)
  · intro H vs hvs
    obtain ⟨h1, h2, h3⟩ := H
    rcases List.mem_append.mp hvs with h12 | hblk
    · rcases List.mem_append.mp h12 with hr | hc
      · obtain ⟨r, _, rfl⟩ := List.mem_map.mp hr
        exact h1 r
      · obtain ⟨c, _, rfl⟩ := List.mem_map.mp hc
        exact h2 c
    · obtain ⟨inner, hin, hmem⟩ := List.mem_flatten.mp hblk
      obtain ⟨br, _, rfl⟩ := List.mem_map.mp hin
      obtain ⟨bc, _, rfl⟩ := List.mem_map.mp hmem
      exact h3 br bc

lemma rowList_ranges {g : Grid} (h : ∀ r c, 1 ≤ g r c ∧ g r c ≤ 9) (r : Fin 9) :
    ∀ v ∈ rowList g r, 1 ≤ v ∧ v ≤ 9 := by
  intro v hv
  rw [rowList, List.mem_map] at hv
  obtain ⟨c, _, rfl⟩ := hv
  exact h r c

lemma colList_ranges {g : Grid} (h : ∀ r c, 1 ≤ g r c ∧ g r c ≤ 9) (c : Fin 9) :
    ∀ v ∈ colList g c, 1 ≤ v ∧ v ≤ 9 := by
  intro v hv
  rw [colList, List.mem_map] at hv
  obtain ⟨r, _, rfl⟩ := hv
  exact h r c

lemma blockList_ranges {g : Grid} (h : ∀ r c, 1 ≤ g r c ∧ g r c ≤ 9) (br bc : Fin 3) :
    ∀ v ∈ blockList g br bc, 1 ≤ v ∧ v ≤ 9 := by
  intro v hv
  rw [blockList] at hv
  rw [List.mem_flatten] at hv
  obtain ⟨inner, hin, hmem⟩ := hv
  rw [List.mem_map] at hin
  obtain ⟨dr, _, rfl⟩ := hin
  rw [List.mem_map] at hmem
  obtain ⟨dc, _, rfl⟩ := hmem
  exact h _ _

lemma gridGroups_ranges {g : Grid} (h : ∀ r c, 1 ≤ g r c ∧ g r c ≤ 9) :
    ∀ vs ∈ gridGroups g, ∀ v ∈ vs, 1 ≤ v ∧ v ≤ 9 :=
  (gridGroups_forall _).mpr
    ⟨rowList_ranges h, colList_ranges h, blockList_ranges h⟩

lemma count_onetonine (d : Nat) :
    onetonine.count d = if 1 ≤ d ∧ d ≤ 9 then 1 else 0 := by
  by_cases h9 : d ≤ 9
  · interval_cases d <;> decide
  · rw [List.count_eq_zero.mpr, if_neg (by omega)]
    simp only [onetonine, List.mem_cons, List.not_mem_nil, or_false]
    omega

lemma perm_iff_counts (vals : List Nat) (h : ∀ v ∈ vals, 1 ≤ v ∧ v ≤ 9) :
    vals.Perm onetonine ↔ ∀ d, 1 ≤ d → d ≤ 9 → vals.count d = 1 := by
  rw [List.perm_iff_count]
  constructor
  · intro H d h1 h9
    rw [H d, count_onetonine, if_pos ⟨h1, h9⟩]
  · intro H a
    by_cases ha : 1 ≤ a ∧ a ≤ 9
    · rw [count_onetonine, if_pos ha]
      exact H a ha.1 ha.2
    · rw [count_onetonine, if_neg ha, List.count_eq_zero]
      intro hmem
      exact ha (h a hmem)

lemma checkGroup_true_iff_perm (vals : List Nat) (h : ∀ v ∈ vals, 1 ≤ v ∧ v ≤ 9) :
    checkGroup vals = some true ↔ vals.Perm onetonine :=
  (checkGroup_eq_true_iff vals h).trans (perm_iff_counts vals h).symm

lemma valid_true_ranges {g : Grid} (h : sudoku_valid g = some true) :
    ∀ r c, 1 ≤ g r c ∧ g r c ≤ 9 := by
  intro r c
  rw [sudoku_valid, validGo_eq_true_iff] at h
  have hrow := ((gridGroups_forall _).mp h).1 r
  exact checkGroup_ranges hrow (g r c)
    (by rw [rowList, List.mem_map]; exact ⟨c, List.mem_finRange c, rfl⟩)

lemma toDigit10_digit {c : Char} (h : isDigitChar c) :
    toDigit10 c = some (c.toNat - 48) := by
  rw [toDigit10, if_pos h]

lemma toDigit10_none {c : Char} (h : ¬ isDigitChar c) : toDigit10 c = none := by
  rw [toDigit10, if_neg h]

lemma toDigit10_le {c : Char} {v : Nat} (h : toDigit10 c = some v) : v ≤ 9 := by
  rw [toDigit10] at h
  by_cases hd : isDigitChar c
  · rw [if_pos hd] at h
    obtain ⟨h1, h2⟩ := hd
    cases h
    omega
  · rw [if_neg hd] at h
    cases h

lemma fromStrGo_digits : ∀ (l : List Char) (i : Nat) (t : Grid),
    (∀ c ∈ l, isDigitChar c) → fromStrGo l i t = .ok (writeAll l i t) := by
  intro l
  induction l with
  | nil => intro i t _; rfl
  | cons c rest ih =>
      intro i t h
      have hc := h c (List.mem_cons_self c rest)
      have hle : c.toNat - 48 ≤ 255 := by
        obtain ⟨h1, h2⟩ := hc
        omega
      simp only [fromStrGo, toDigit10_digit hc, if_pos hle]
      rw [writeAll]
      exact ih _ _ (fun x hx => h x (List.mem_cons_of_mem c hx))

lemma writeAll_skip : ∀ (l : List Char) (i : Nat) (t : Grid) (r c : Fin 9),
    (∀ k, k < l.length → ¬((i + k) / 9 = r.val ∧ (i + k) % 9 = c.val)) →
    writeAll l i t r c = t r c := by
  intro l
  induction l with
  | nil => intro i t r c _; rfl
  | cons ch rest ih =>
      intro i t r c h
      rw [writeAll, ih _ _ r c (fun k hk => by
        have := h (k + 1) (by simpa using Nat.succ_lt_succ hk)
        intro hx
        exact this (by rw [show i + (k + 1) = i + 1 + k by omega]; exact hx))]
      rw [setCell]
      have h0 := h 0 (by simp)
      rw [if_neg]
      intro hx
      exact h0 (by simpa using ⟨hx.1.symm, hx.2.symm⟩)

lemma writeAll_lookup : ∀ (l : List Char) (i : Nat) (t : Grid) (n : Nat)
    (hn : n < 81) (hi : i ≤ n) (hl : n < i + l.length),
    writeAll l i t ⟨n / 9, by omega⟩ ⟨n % 9, by omega⟩
      = (l.getD (n - i) ' ').toNat - 48 := by
  intro l
  induction l with
  | nil => intro i t n hn hi hl; simp at hl; omega
  | cons c rest ih =>
      intro i t n hn hi hl
      rw [writeAll]
      by_cases hni : n = i
      · subst hni
        rw [Nat.sub_self, List.getD_cons_zero]
        rw [writeAll_skip rest (n + 1) _ _ _ (fun k hk => by
          intro hx
          have h1 : (n + 1 + k) / 9 = n / 9 := hx.1
          have h2 : (n + 1 + k) % 9 = n % 9 := hx.2
          omega)]
        rw [setCell, if_pos ⟨rfl, rfl⟩]
      · have hrec := ih (i + 1) (setCell t (i / 9) (i % 9) (c.toNat - 48)) n hn
          (by omega) (by simp at hl; omega)
        rw [hrec, show n - i = n - (i + 1) + 1 by omega, List.getD_cons_succ]

lemma fromStrGo_ok_bound : ∀ (l : List Char) (i : Nat) (t : Grid) (g : Grid),
    fromStrGo l i t = .ok g → (∀ r c, t r c ≤ 9) → ∀ r c, g r c ≤ 9 := by
  intro l
  induction l with
  | nil =>
      intro i t g h ht
      rw [fromStrGo] at h
      cases h
      exact ht
  | cons c rest ih =>
      intro i t g h ht
      rw [fromStrGo] at h
      cases hd : toDigit10 c with
      | none => rw [hd] at h; cases h
      | some v =>
          simp only [hd] at h
          rw [if_pos (show v ≤ 255 by have := toDigit10_le hd; omega)] at h
          refine ih _ _ _ h (fun r co => ?_)
          rw [setCell]
          by_cases hrc : r.val = i / 9 ∧ co.val = i % 9
          · rw [if_pos hrc]; exact toDigit10_le hd
          · rw [if_neg hrc]; exact ht r co

lemma fromStrGo_error_invalid : ∀ (l : List Char) (i : Nat) (t : Grid)
    (e : SudokuError), fromStrGo l i t = .error e →
    ∃ c r co, e = ⟨invalidCharMsg c r co⟩ ∧ ¬ isDigitChar c := by
  intro l
  induction l with
  | nil => intro i t e h; rw [fromStrGo] at h; cases h
  | cons c rest ih =>
      intro i t e h
      rw [fromStrGo] at h
      cases hd : toDigit10 c with
      | none =>
          rw [hd] at h
          cases h
          refine ⟨c, i / 9, i % 9, rfl, ?_⟩
          intro hdig
          rw [toDigit10_digit hdig] at hd
          cases hd
      | some v =>
          simp only [hd] at h
          rw [if_pos (show v ≤ 255 by have := toDigit10_le hd; omega)] at h
          exact ih _ _ _ h

lemma invalidCharMsg_head (c : Char) (r co : Nat) :
    (invalidCharMsg c r co).data.head? = some 'I' := rfl

lemma invalidCharMsg_ne_wrongLength (c : Char) (r co : Nat) :
    invalidCharMsg c r co ≠ wrongLengthMsg := by
  intro h
  have h2 : (invalidCharMsg c r co).data.head? = wrongLengthMsg.data.head? := by rw [h]
  rw [invalidCharMsg_head] at h2
  exact absurd h2 (by decide)

lemma invalidCharMsg_ne_convert (c : Char) (r co : Nat) :
    invalidCharMsg c r co ≠ convertMsg := by
  intro h
  have h2 : (invalidCharMsg c r co).data.head? = convertMsg.data.head? := by rw [h]
  rw [invalidCharMsg_head] at h2
  exact absurd h2 (by decide)

lemma charBytes_digit {c : Char} (h : isDigitChar c) : charBytes c = 1 := by
  obtain ⟨h1, h2⟩ := h
  rw [charBytes, if_pos (by omega)]

lemma byteLen_all_digits : ∀ {l : List Char},
    (∀ c ∈ l, isDigitChar c) → byteLen l = l.length := by
  intro l
  induction l with
  | nil => intro _; rfl
  | cons c rest ih =>
      intro h
      rw [byteLen, List.map_cons, List.sum_cons,
        charBytes_digit (h c (List.mem_cons_self c rest))]
      have := ih (fun x hx => h x (List.mem_cons_of_mem c hx))
      rw [byteLen] at this
      rw [this, List.length_cons]
      omega

/-- The character loop of `from_str` with the `try_into` narrowing branch
removed: the spec's reading that the conversion is infallible. -/
def fromStrGoInfallible : List Char → Nat → Grid → Except SudokuError Grid
  | [], _, t => .ok t
  | c :: rest, i, t =>
      match toDigit10 c with
      | none => .error ⟨invalidCharMsg c (i / 9) (i % 9)⟩
      | some v => fromStrGoInfallible rest (i + 1) (setCell t (i / 9) (i % 9) v)

/-- The solved puzzle of `test_validate_sudoku` as a table of numbers. -/
def solvedTable : List (List Nat) :=
  [[5, 3, 4, 6, 7, 8, 9, 1, 2],
   [6, 7, 2, 1, 9, 5, 3, 4, 8],
   [1, 9, 8, 3, 4, 2, 5, 6, 7],
   [8, 5, 9, 7, 6, 1, 4, 2, 3],
   [4, 2, 6, 8, 5, 3, 7, 9, 1],
   [7, 1, 3, 9, 2, 4, 8, 5, 6],
   [9, 6, 1, 5, 3, 7, 2, 8, 4],
   [2, 8, 7, 4, 1, 9, 6, 3, 5],
   [3, 4, 5, 2, 8, 6, 1, 7, 9]]

/-- The solved puzzle as a `Grid`. -/
def solvedGrid : Grid := fun r c => (solvedTable.getD r.val []).getD c.val 0

lemma fromStrGo_first_bad : ∀ (l : List Char) (i0 : Nat) (t : Grid) (k : Nat),
    k < l.length →
    (∀ j, j < k → isDigitChar (l.getD j ' ')) →
    ¬ isDigitChar (l.getD k ' ') →
    fromStrGo l i0 t
      = .error ⟨invalidCharMsg (l.getD k ' ') ((i0 + k) / 9) ((i0 + k) % 9)⟩ := by
  intro l
  induction l with
  | nil => intro i0 t k hk; simp at hk
  | cons c rest ih =>
      intro i0 t k hk hpre hbad
      cases k with
      | zero =>
          rw [List.getD_cons_zero] at hbad ⊢
          simp only [fromStrGo, toDigit10_none hbad, Nat.add_zero]
      | succ k2 =>
          have hc : isDigitChar c := by
            have := hpre 0 (Nat.succ_pos k2)
            rwa [List.getD_cons_zero] at this
          have hle : c.toNat - 48 ≤ 255 := by obtain ⟨h1, h2⟩ := hc; omega
          simp only [fromStrGo, toDigit10_digit hc, if_pos hle]
          rw [List.getD_cons_succ] at hbad ⊢
          rw [show i0 + (k2 + 1) = i0 + 1 + k2 by omega]
          exact ih (i0 + 1) _ k2 (by simp at hk; omega)
            (fun j hj => by
              have := hpre (j + 1) (by omega)
              rwa [List.getD_cons_succ] at this) hbad

lemma fromStrGo_eq_infallible : ∀ (l : List Char) (i : Nat) (t : Grid),
    fromStrGo l i t = fromStrGoInfallible l i t := by
  intro l
  induction l with
  | nil => intro i t; rfl
  | cons c rest ih =>
      intro i t
      rw [fromStrGo, fromStrGoInfallible]
      cases hd : toDigit10 c with
      | none => simp only [hd]
      | some v =>
          simp only [hd, if_pos (show v ≤ 255 by have := toDigit10_le hd; omega)]
          exact ih _ _

lemma from_str_ok_writeAll (cs : List Char)
    (hdig : ∀ c ∈ stripNewlines cs, isDigitChar c)
    (hlen : (stripNewlines cs).length = 81) :
    sudoku_from_str cs = .ok (writeAll (stripNewlines cs) 0 (fun _ _ => 0)) := by
  have hb : byteLen (stripNewlines cs) = 81 := by
    rw [byteLen_all_digits hdig, hlen]
  simp only [sudoku_from_str]
  rw [if_neg (by omega)]
  exact fromStrGo_digits _ 0 _ hdig

lemma from_str_ok_bound {s : List Char} {g : Grid}
    (h : sudoku_from_str s = .ok g) : ∀ r c, g r c ≤ 9 := by
  revert h
  simp only [sudoku_from_str]
  intro h
  by_cases hb : byteLen (stripNewlines s) ≠ 81
  · rw [if_pos hb] at h; cases h
  · rw [if_neg hb] at h
    exact fromStrGo_ok_bound _ _ _ _ h (fun _ _ => by omega)

lemma from_str_error_shape {s : List Char} {e : SudokuError}
    (h : sudoku_from_str s = .error e) :
    e = ⟨wrongLengthMsg⟩ ∨ ∃ c r co, e = ⟨invalidCharMsg c r co⟩ ∧ ¬ isDigitChar c := by
  revert h
  simp only [sudoku_from_str]
  intro h
  by_cases hb : byteLen (stripNewlines s) ≠ 81
  · rw [if_pos hb] at h
    cases h
    exact Or.inl rfl
  · rw [if_neg hb] at h
    exact Or.inr (fromStrGo_error_invalid _ _ _ _ h)

lemma digitChar_props {v : Nat} (h : v ≤ 9) :
    isDigitChar (Char.ofNat (v + 48)) ∧ (Char.ofNat (v + 48)).toNat = v + 48 := by
  interval_cases v <;> exact ⟨by decide, by decide⟩

lemma digitChar_ne_newline {v : Nat} (h : v ≤ 9) :
    Char.ofNat (v + 48) ≠ '\n' := by
  interval_cases v <;> decide

/-- Claim C1: for every grid whose 81 cells all lie in 1..9, `valid`
returns a boolean (no panic), is a pure function of the cell contents,
and returns `true` iff every row, column and 3×3 block is a permutation
of 1..9. -/
theorem c1_valid_iff_permutations (g : Grid)
    (h : ∀ r c, 1 ≤ g r c ∧ g r c ≤ 9) :
    (∃ b, sudoku_valid g = some b) ∧
    (∀ g2 : Grid, (∀ r c, g r c = g2 r c) → sudoku_valid g = sudoku_valid g2) ∧
    (sudoku_valid g = some true ↔
      (∀ r, (rowList g r).Perm onetonine) ∧
      (∀ c, (colList g c).Perm onetonine) ∧
      (∀ br bc, (blockList g br bc).Perm onetonine)) := by
  refine ⟨?_, ?_, ?_⟩
  · exact validGo_some _ (fun vs hvs => checkGroup_some vs (gridGroups_ranges h vs hvs))
  · intro g2 hg
    have hgg : g = g2 := funext (fun r => funext (fun c => hg r c))
    rw [hgg]
  · rw [sudoku_valid, validGo_eq_true_iff, gridGroups_forall]
    constructor
    · rintro ⟨h1, h2, h3⟩
      exact ⟨fun r => (checkGroup_true_iff_perm _ (rowList_ranges h r)).mp (h1 r),
             fun c => (checkGroup_true_iff_perm _ (colList_ranges h c)).mp (h2 c),
             fun br bc => (checkGroup_true_iff_perm _ (blockList_ranges h br bc)).mp (h3 br bc)⟩
    · rintro ⟨h1, h2, h3⟩
      exact ⟨fun r => (checkGroup_true_iff_perm _ (rowList_ranges h r)).mpr (h1 r),
             fun c => (checkGroup_true_iff_perm _ (colList_ranges h c)).mpr (h2 c),
             fun br bc => (checkGroup_true_iff_perm _ (blockList_ranges h br bc)).mpr (h3 br bc)⟩

/-- Witness for C1 at the solved test puzzle. -/
theorem c1_valid_iff_permutations_witness :
    (∀ r c, 1 ≤ solvedGrid r c ∧ solvedGrid r c ≤ 9) ∧
      sudoku_valid solvedGrid = some true :=
  ⟨by decide, ((c1_valid_iff_permutations solvedGrid (by decide)).2.2).mpr (by decide)⟩

/-- Claim C2 (the claim is FALSE on the code): a grid with a cell of 0 or
one greater than 9 does not make `valid` return `false`; the counts-array
index panics.  Both the all-zeros and the all-tens grid panic (`none`). -/
theorem c2_out_of_range_panics :
    sudoku_valid (fun _ _ => 0) = none ∧ sudoku_valid (fun _ _ => 10) = none := by
  constructor
  · decide
  · decide

/-- Claim C7: in the cyclic Latin square `(r + c) % 9 + 1`, every row and
every column is a permutation of 1..9, yet `valid` returns `false`
because a 3×3 block is not a permutation. -/
theorem c7_cyclic_latin_square :
    (∀ r, (rowList cyclicGrid r).Perm onetonine) ∧
    (∀ c, (colList cyclicGrid c).Perm onetonine) ∧
    (∃ br bc, ¬ (blockList cyclicGrid br bc).Perm onetonine) ∧
    sudoku_valid cyclicGrid = some false := by
  refine ⟨by decide, by decide, ⟨0, 0, by decide⟩, by decide⟩

lemma flattenGrid_length (g : Grid) : (flattenGrid g).length = 81 := by
  rw [flattenGrid, List.length_map, List.length_finRange]

lemma flattenGrid_digits (g : Grid) (h : ∀ r c, g r c ≤ 9) :
    ∀ a ∈ flattenGrid g, isDigitChar a := by
  intro a ha
  rw [flattenGrid, List.mem_map] at ha
  obtain ⟨n, _, rfl⟩ := ha
  exact (digitChar_props (h _ _)).1

lemma stripNewlines_flattenGrid (g : Grid) (h : ∀ r c, g r c ≤ 9) :
    stripNewlines (flattenGrid g) = flattenGrid g := by
  rw [stripNewlines, List.filter_eq_self]
  intro a ha
  rw [flattenGrid, List.mem_map] at ha
  obtain ⟨n, _, rfl⟩ := ha
  simpa [bne_iff_ne] using digitChar_ne_newline (h _ _)

lemma flattenGrid_getD (g : Grid) (n : Nat) (hn : n < 81) :
    (flattenGrid g).getD n ' '
      = Char.ofNat (g ⟨n / 9, by omega⟩ ⟨n % 9, by omega⟩ + 48) := by
  have hlen : n < (flattenGrid g).length := by rw [flattenGrid_length]; omega
  rw [List.getD_eq_getElem _ _ hlen]
  simp only [flattenGrid, List.getElem_map, List.getElem_finRange]
  rfl

lemma writeAll_flattenGrid (g : Grid) (h : ∀ r c, g r c ≤ 9) :
    writeAll (flattenGrid g) 0 (fun _ _ => 0) = g := by
  funext r c
  have hr := r.2
  have hc := c.2
  have hn : r.val * 9 + c.val < 81 := by omega
  have key := writeAll_lookup (flattenGrid g) 0 (fun _ _ => 0) (r.val * 9 + c.val)
    hn (by omega) (by rw [flattenGrid_length]; omega)
  rw [Nat.sub_zero, flattenGrid_getD g _ hn] at key
  have hdiv : (r.val * 9 + c.val) / 9 = r.val := by omega
  have hmod : (r.val * 9 + c.val) % 9 = c.val := by omega
  have hfr : (⟨(r.val * 9 + c.val) / 9, by omega⟩ : Fin 9) = r := Fin.ext hdiv
  have hfc : (⟨(r.val * 9 + c.val) % 9, by omega⟩ : Fin 9) = c := Fin.ext hmod
  rw [hfr, hfc] at key
  rw [key, (digitChar_props (h r c)).2]
  omega

/-- Claim C3: a string whose newline-stripped form consists of exactly 81
decimal digit characters parses successfully, and cell `(i / 9, i % 9)`
holds the numeric value of the `i`-th stripped character. -/
theorem c3_parse_digits (cs : List Char)
    (hdig : ∀ c ∈ stripNewlines cs, isDigitChar c)
    (hlen : (stripNewlines cs).length = 81) :
    ∃ g, sudoku_from_str cs = .ok g ∧
      ∀ i (hi : i < 81),
        g ⟨i / 9, by omega⟩ ⟨i % 9, by omega⟩
          = ((stripNewlines cs).getD i ' ').toNat - 48 := by
  refine ⟨writeAll (stripNewlines cs) 0 (fun _ _ => 0),
    from_str_ok_writeAll cs hdig hlen, ?_⟩
  intro i hi
  have key := writeAll_lookup (stripNewlines cs) 0 (fun _ _ => 0) i
    (by omega) (by omega) (by omega)
  rwa [Nat.sub_zero] at key

/-- Witness for C3 at the solved test puzzle: cell (0, 0) holds 5. -/
theorem c3_parse_digits_witness :
    ∃ g, sudoku_from_str solvedStr = .ok g ∧ g ⟨0, by omega⟩ ⟨0, by omega⟩ = 5 := by
  obtain ⟨g, h1, h2⟩ := c3_parse_digits solvedStr (by decide) (by decide)
  refine ⟨g, h1, ?_⟩
  have h3 := h2 0 (by omega)
  exact h3.trans (by decide)

/-- Claim C4 counterexample: 80 ASCII digits followed by a 2-byte
character give a newline-stripped length of exactly 81 characters, yet
`from_str` reports the length error — the check is on UTF-8 bytes, not
characters. -/
theorem c4_counterexample :
    (stripNewlines multibyteStr).length = 81 ∧
      sudoku_from_str multibyteStr = .error ⟨wrongLengthMsg⟩ := by
  constructor
  · decide
  · decide

/-- Claim C4 as amended: the WrongLength error occurs exactly when the
newline-stripped UTF-8 byte length differs from 81 (and its message is
the literal naming the 81-cell requirement). -/
theorem c4_wrong_length_amended (cs : List Char) :
    sudoku_from_str cs = .error ⟨wrongLengthMsg⟩ ↔
      byteLen (stripNewlines cs) ≠ 81 := by
  constructor
  · intro h
    by_contra hb
    simp only [sudoku_from_str] at h
    rw [if_neg (show ¬ (byteLen (stripNewlines cs) ≠ 81) by omega)] at h
    obtain ⟨c, r, co, he, _⟩ := fromStrGo_error_invalid _ _ _ _ h
    exact invalidCharMsg_ne_wrongLength c r co (congrArg SudokuError.details he).symm
  · intro hb
    simp only [sudoku_from_str]
    rw [if_pos hb]

/-- Claim C5 counterexample: the same 81-character input with a final
2-byte character contains a non-digit, but the error is WrongLength, not
the InvalidCharacter message the claim requires. -/
theorem c5_counterexample :
    (stripNewlines multibyteStr).length = 81 ∧
      ¬ isDigitChar (Char.ofNat 233) ∧
      Char.ofNat 233 ∈ stripNewlines multibyteStr ∧
      sudoku_from_str multibyteStr ≠ .error ⟨invalidCharMsg (Char.ofNat 233) 8 8⟩ ∧
      sudoku_from_str multibyteStr = .error ⟨wrongLengthMsg⟩ := by
  refine ⟨by decide, by decide, by decide, by decide, by decide⟩

/-- Claim C5 as amended: when the newline-stripped UTF-8 byte length is
81 and the first non-digit character sits at stripped index `i`, parsing
fails with the InvalidCharacter message naming that character and
`row = i / 9`, `col = i % 9`.  Only newlines are stripped, so a space or
tab is such a character. -/
theorem c5_invalid_char_amended (cs : List Char)
    (hb : byteLen (stripNewlines cs) = 81)
    (i : Nat) (hi : i < (stripNewlines cs).length)
    (hbad : ¬ isDigitChar ((stripNewlines cs).getD i ' '))
    (hpre : ∀ j, j < i → isDigitChar ((stripNewlines cs).getD j ' ')) :
    sudoku_from_str cs = .error
      ⟨invalidCharMsg ((stripNewlines cs).getD i ' ') (i / 9) (i % 9)⟩ := by
  simp only [sudoku_from_str]
  rw [if_neg (by omega)]
  have key := fromStrGo_first_bad (stripNewlines cs) 0 (fun _ _ => 0) i hi hpre hbad
  rwa [Nat.zero_add] at key

/-- Witness for C5 at 81 single-byte characters with a space at stripped
index 40: the error names the space and position 4,4. -/
theorem c5_invalid_char_amended_witness :
    sudoku_from_str spaceStr = .error ⟨invalidCharMsg ' ' 4 4⟩ := by
  have key := c5_invalid_char_amended spaceStr (by decide) 40 (by decide)
    (by decide) (by decide)
  exact key

/-- Claim C6 counterexample: the claim says a parsed grid with a 0 cell
is reported invalid (`valid = false`); in fact `valid` panics on the row
holding the 0 instead of returning `false`. -/
theorem c6_counterexample :
    ∃ g, sudoku_from_str zeroCellStr = .ok g ∧
      g ⟨8, by omega⟩ ⟨8, by omega⟩ = 0 ∧
      sudoku_valid g = none ∧ sudoku_valid g ≠ some false :=
  ⟨_, rfl, by decide, by decide, by decide⟩

/-- Claim C6 as amended: parsing does not reject the digit 0 (the cell is
stored as 0), and `valid` never returns `true` on a grid with a 0 cell —
though it panics when it reaches that cell rather than returning
`false`. -/
theorem c6_zero_cell_amended :
    (∀ cs : List Char, (∀ c ∈ stripNewlines cs, isDigitChar c) →
      (stripNewlines cs).length = 81 →
      ∀ i (hi : i < 81), (stripNewlines cs).getD i ' ' = '0' →
        ∃ g, sudoku_from_str cs = .ok g ∧
          g ⟨i / 9, by omega⟩ ⟨i % 9, by omega⟩ = 0) ∧
    (∀ g : Grid, (∃ r c, g r c = 0) → sudoku_valid g ≠ some true) := by
  constructor
  · intro cs hdig hlen i hi h0
    refine ⟨_, from_str_ok_writeAll cs hdig hlen, ?_⟩
    have key := writeAll_lookup (stripNewlines cs) 0 (fun _ _ => 0) i
      (by omega) (by omega) (by omega)
    rw [Nat.sub_zero, h0] at key
    exact key.trans (by decide)
  · rintro g ⟨r, c, h0⟩ hval
    obtain ⟨h1, _⟩ := valid_true_ranges hval r c
    rw [h0] at h1
    omega

/-- Witness for C6 at the solved puzzle with its last cell turned into 0,
and at the all-zeros grid. -/
theorem c6_zero_cell_amended_witness :
    (∃ g, sudoku_from_str zeroCellStr = .ok g ∧
      g ⟨80 / 9, by omega⟩ ⟨80 % 9, by omega⟩ = 0) ∧
      sudoku_valid (fun _ _ => 0) ≠ some true :=
  ⟨c6_zero_cell_amended.1 zeroCellStr (by decide) (by decide) 80 (by omega) (by decide),
   c6_zero_cell_amended.2 _ ⟨0, 0, rfl⟩⟩

/-- Claim C8: round-trip — any grid obtained from a successful parse,
flattened in row-major order to a bare digit string, parses back to the
identical grid. -/
theorem c8_roundtrip (s : List Char) (g : Grid)
    (h : sudoku_from_str s = .ok g) :
    sudoku_from_str (flattenGrid g) = .ok g := by
  have hcell := from_str_ok_bound h
  have hdig := flattenGrid_digits g hcell
  have hstrip := stripNewlines_flattenGrid g hcell
  have hok := from_str_ok_writeAll (flattenGrid g)
    (by rw [hstrip]; exact hdig) (by rw [hstrip]; exact flattenGrid_length g)
  rw [hok, hstrip, writeAll_flattenGrid g hcell]

/-- Witness for C8 at the solved test puzzle. -/
theorem c8_roundtrip_witness :
    ∃ g, sudoku_from_str solvedStr = .ok g ∧
      sudoku_from_str (flattenGrid g) = .ok g :=
  ⟨_, rfl, c8_roundtrip solvedStr _ rfl⟩

/-- Claim C9: formatting is total and deterministic (a pure function, so
grids with equal contents format identically), and the output consists of
the 9 data rows, each cell followed by a space with `"| "` before column
indices 3 and 6, and the separator line before row indices 3 and 6. -/
theorem c9_format_deterministic :
    (∀ g g2 : Grid, (∀ r c, g r c = g2 r c) → sudoku_format g = sudoku_format g2) ∧
    (∀ g : Grid, sudoku_format g = sudoku_format_spec g) := by
  constructor
  · intro g g2 hg
    have hgg : g = g2 := funext (fun r => funext (fun c => hg r c))
    rw [hgg]
  · intro g
    rfl

/-- Witness for C9 at the solved test puzzle. -/
theorem c9_format_deterministic_witness :
    sudoku_format solvedGrid = sudoku_format_spec solvedGrid :=
  c9_format_deterministic.2 solvedGrid

/-- Claim C10: the u8-narrowing error branch of `from_str` is
unreachable — the loop equals the branch-free loop, no parse ever
produces the conversion error message, and every parsed grid has all
cells in 0..=9. -/
theorem c10_conversion_unreachable :
    (∀ (l : List Char) (i : Nat) (t : Grid),
        fromStrGo l i t = fromStrGoInfallible l i t) ∧
    (∀ (s : List Char) (e : SudokuError),
        sudoku_from_str s = .error e → e.details ≠ convertMsg) ∧
    (∀ (s : List Char) (g : Grid),
        sudoku_from_str s = .ok g → ∀ r c, g r c ≤ 9) := by
  refine ⟨fromStrGo_eq_infallible, ?_, fun s g h => from_str_ok_bound h⟩
  intro s e h
  rcases from_str_error_shape h with he | ⟨c, r, co, he, _⟩
  · rw [he]
    decide
  · rw [he]
    exact invalidCharMsg_ne_convert c r co

/-- Witness for C10 at the solved test puzzle. -/
theorem c10_conversion_unreachable_witness :
    sudoku_from_str solvedStr ≠ .error ⟨convertMsg⟩ ∧
      ∃ g, sudoku_from_str solvedStr = .ok g ∧ ∀ r c, g r c ≤ 9 :=
  ⟨fun h => c10_conversion_unreachable.2.1 solvedStr _ h rfl,
   ⟨_, rfl, c10_conversion_unreachable.2.2 solvedStr _ rfl⟩⟩
